import Mathlib

/-!
Shallow embedding of `src/main.rs` of the auto-clicker repository.

The program has four parts:
* `high_precision_sleep` — the raw sleep primitive;
* the inline `remaining_delay` loops inside `execute_click_sequence` —
  the chunked, cancellable wait (the spec's `cancellable_wait`);
* `execute_click_sequence` — the sequence runner thread body;
* `main` — the supervisor loop polling ESC and mouse side button 1.

Asynchronous inputs are modelled as oracles:
* the shared `should_stop` flag is a function `Nat → Bool` giving the value
  returned by the n-th atomic load performed by the runner (an index is
  threaded through the embedding and bumped at every load);
* the injection world `iw : Nat → Bool × Nat` gives, for a click performed
  at check index `i`, whether `SetCursorPos` succeeds and how many `INPUT`
  events `SendInput` reports as sent;
* the supervisor's two key samples are a list of `(esc, side)` pairs, one
  per iteration of the main loop.

Observable behaviour is a trace of events (sleeps with their duration,
clicks with their coordinates; supervisor-side: flag stores, spawn, join,
tick sleeps).
-/

namespace AutoClicker

/-- One entry of `Config.points`: the `[i32; 4]` array `[x, y, pre_delay,
post_delay]`, destructured by `execute_click_sequence` as
`let [x, y, pre_delay, post_delay] = *point`.  All four components are
signed 32-bit integers in the source, modelled as `Int`. -/
structure ClickPoint where
  x : Int
  y : Int
  pre_delay : Int
  post_delay : Int
deriving DecidableEq, Repr

/-- The `Config` struct: `points: Vec<[i32; 4]>`, `pre_round_delay: u64`,
`post_round_delay: u64` (the `u64` fields modelled as `Nat`). -/
structure Config where
  points : List ClickPoint
  pre_round_delay : Nat
  post_round_delay : Nat
deriving DecidableEq, Repr

/-- Observable events of the sequence-runner thread. -/
inductive Event where
  /-- a call `high_precision_sleep(ms)` that actually slept (`ms > 0`) -/
  | sleep (ms : Nat)
  /-- a call `simulate_click(x, y)` -/
  | click (x y : Int)
deriving DecidableEq, Repr

/-- `high_precision_sleep(milliseconds)`: returns immediately on `0`,
otherwise sleeps `milliseconds.saturating_mul(1_000_000)` nanoseconds
(`u64` saturation).  The result is the list of nanosecond sleeps the call
performs. -/
def high_precision_sleep (milliseconds : Nat) : List Nat :=
  if milliseconds = 0 then []
  else [min (milliseconds * 1000000) (2 ^ 64 - 1)]

/-- The inline chunked wait of `execute_click_sequence`:

```rust
while remaining_delay > 0 && !should_stop.load(Ordering::Relaxed) {
    let sleep_time = if remaining_delay > 10 { 10 } else { remaining_delay };
    high_precision_sleep(sleep_time);
    remaining_delay -= sleep_time;
}
```

`cancellable_wait flag remaining i` returns the list of quantum sleep
durations (in ms) performed, paired with the flag-load index after the loop.
`&&` short-circuits, so when `remaining = 0` the flag is not loaded and the
index is unchanged. -/
def cancellable_wait (flag : Nat → Bool) : Nat → Nat → List Nat × Nat
  | 0, i => ([], i)
  | r + 1, i =>
    if flag i then ([], i + 1)
    else
      let sleep_time := if r + 1 > 10 then 10 else r + 1
      let rest := cancellable_wait flag (r + 1 - sleep_time) (i + 1)
      (sleep_time :: rest.1, rest.2)
termination_by r _ => r
decreasing_by simp_wf; split <;> omega

theorem cancellable_wait_zero (flag : Nat → Bool) (i : Nat) :
    cancellable_wait flag 0 i = ([], i) :=
  cancellable_wait.eq_1 flag i

theorem cancellable_wait_true (flag : Nat → Bool) (r i : Nat)
    (hf : flag i = true) :
    cancellable_wait flag (r + 1) i = ([], i + 1) := by
  rw [cancellable_wait.eq_2]
  simp [hf]

theorem cancellable_wait_false (flag : Nat → Bool) (r i : Nat)
    (hf : flag i = false) :
    cancellable_wait flag (r + 1) i =
      ((if r + 1 > 10 then 10 else r + 1) ::
          (cancellable_wait flag
            (r + 1 - (if r + 1 > 10 then 10 else r + 1)) (i + 1)).1,
        (cancellable_wait flag
          (r + 1 - (if r + 1 > 10 then 10 else r + 1)) (i + 1)).2) := by
  rw [cancellable_wait.eq_2]
  simp [hf]

/-- Every quantum slept by the chunked wait is positive and at most 10 ms. -/
theorem cancellable_wait_quanta (flag : Nat → Bool) (r i q : Nat)
    (hq : q ∈ (cancellable_wait flag r i).1) : 0 < q ∧ q ≤ 10 := by
  induction r using Nat.strong_induction_on generalizing i with
  | _ r ih =>
    match r with
    | 0 => simp [cancellable_wait_zero] at hq
    | r + 1 =>
      by_cases hf : flag i
      · rw [cancellable_wait_true flag r i hf] at hq
        simp at hq
      · rw [cancellable_wait_false flag r i (Bool.eq_false_iff.mpr hf)] at hq
        rcases List.mem_cons.mp hq with h | h
        · subst h; split <;> omega
        · exact ih _ (by split <;> omega) _ h

/-- The aggregate sleep of the chunked wait never exceeds the requested
total. -/
theorem cancellable_wait_sum_le (flag : Nat → Bool) (r i : Nat) :
    (cancellable_wait flag r i).1.sum ≤ r := by
  induction r using Nat.strong_induction_on generalizing i with
  | _ r ih =>
    match r with
    | 0 => simp [cancellable_wait_zero]
    | r + 1 =>
      by_cases hf : flag i
      · rw [cancellable_wait_true flag r i hf]
        simp
      · rw [cancellable_wait_false flag r i (Bool.eq_false_iff.mpr hf)]
        simp only [List.sum_cons]
        by_cases h10 : r + 1 > 10
        · have h := ih (r + 1 - 10) (by omega) (i + 1)
          simp only [if_pos h10]
          omega
        · have h := ih (r + 1 - (r + 1)) (by omega) (i + 1)
          simp only [if_neg h10]
          omega

/-- If the flag is never observed set, the aggregate sleep is exactly the
requested total. -/
theorem cancellable_wait_sum_eq (flag : Nat → Bool) (r i : Nat)
    (hflag : ∀ j, flag j = false) :
    (cancellable_wait flag r i).1.sum = r := by
  induction r using Nat.strong_induction_on generalizing i with
  | _ r ih =>
    match r with
    | 0 => simp [cancellable_wait_zero]
    | r + 1 =>
      rw [cancellable_wait_false flag r i (hflag i)]
      simp only [List.sum_cons]
      by_cases h10 : r + 1 > 10
      · have h := ih (r + 1 - 10) (by omega) (i + 1)
        simp only [if_pos h10]
        omega
      · have h := ih (r + 1 - (r + 1)) (by omega) (i + 1)
        simp only [if_neg h10]
        omega

/-- The flag is re-loaded before every quantum: the k-th quantum slept was
preceded by a load of `flag (i + k)` that returned `false`. -/
theorem cancellable_wait_checks (flag : Nat → Bool) (r i k : Nat)
    (hk : k < (cancellable_wait flag r i).1.length) :
    flag (i + k) = false := by
  induction r using Nat.strong_induction_on generalizing i k with
  | _ r ih =>
    match r with
    | 0 => simp [cancellable_wait_zero] at hk
    | r + 1 =>
      by_cases hf : flag i
      · rw [cancellable_wait_true flag r i hf] at hk
        simp at hk
      · have hf0 : flag i = false := Bool.eq_false_iff.mpr hf
        rw [cancellable_wait_false flag r i hf0] at hk
        simp only [List.length_cons] at hk
        match k with
        | 0 => simpa using hf0
        | k + 1 =>
          have h := ih (r + 1 - (if r + 1 > 10 then 10 else r + 1))
            (by split <;> omega) (i + 1) k (by omega)
          simpa [Nat.add_assoc, Nat.add_comm 1 k] using h

/-- If the flag's j-th load (counting from the wait's first) returns
`true`, at most j quanta are slept: no quantum begins after a load that
observed the flag set. -/
theorem cancellable_wait_stops (flag : Nat → Bool) (r i j : Nat)
    (hj : flag (i + j) = true) :
    (cancellable_wait flag r i).1.length ≤ j := by
  by_contra h
  have hc := cancellable_wait_checks flag r i j (by omega)
  rw [hj] at hc
  simp at hc

/-- The per-step delay wait, guarded by the source's signed comparison:

```rust
if pre_delay > 0 {
    let mut remaining_delay = pre_delay as u64;
    while ... { ... }
}
```

`d` is the `i32` delay; the guard `d > 0` is evaluated on the signed value
and only then is `d` cast to `u64` (`as u64` is `d mod 2^64`). -/
def guarded_wait_i32 (flag : Nat → Bool) (d : Int) (i : Nat) :
    List Nat × Nat :=
  if d > 0 then cancellable_wait flag ((d % (2 : Int) ^ 64).toNat) i
  else ([], i)

/-- The round-delay wait, guarded by the source's unsigned comparison
(`if config.pre_round_delay > 0 { ... }`, the field being `u64`). -/
def guarded_wait_u64 (flag : Nat → Bool) (d : Nat) (i : Nat) :
    List Nat × Nat :=
  if d > 0 then cancellable_wait flag d i
  else ([], i)

/-- `simulate_click(x, y)`: `SetCursorPos` may fail (`set_pos_ok = false`),
then two `INPUT` events are sent and `SendInput`'s return value
(`sent_count`) must equal 2, else an error is returned.  The coordinates do
not affect success, so the model takes only the outcome oracle's data. -/
def simulate_click (set_pos_ok : Bool) (sent_count : Nat) :
    Except String Unit :=
  if !set_pos_ok then Except.error "设置鼠标位置失败"
  else if sent_count ≠ 2 then Except.error "鼠标点击模拟失败"
  else Except.ok ()

/-- The `for point in &config.points` loop body of `execute_click_sequence`:
per point, load the flag (break the for loop if set), run the guarded
pre-delay wait, load the flag again (break if set), call `simulate_click`
discarding its result (`let _ = simulate_click(x, y);`), then run the
guarded post-delay wait.  Returns the event trace and the flag-load index
after the loop. -/
def execute_points (flag : Nat → Bool) (iw : Nat → Bool × Nat) :
    List ClickPoint → Nat → List Event × Nat
  | [], i => ([], i)
  | p :: ps, i =>
    if flag i then ([], i + 1)
    else
      let w1 := guarded_wait_i32 flag p.pre_delay (i + 1)
      if flag w1.2 then (w1.1.map Event.sleep, w1.2 + 1)
      else
        let _res := simulate_click (iw (w1.2 + 1)).1 (iw (w1.2 + 1)).2
        let w2 := guarded_wait_i32 flag p.post_delay (w1.2 + 1)
        let rest := execute_points flag iw ps w2.2
        (w1.1.map Event.sleep ++
           (Event.click p.x p.y :: (w2.1.map Event.sleep ++ rest.1)),
         rest.2)

/-- The body of `execute_click_sequence`, with the unbounded `loop` bounded
by a fuel `n` (a maximum number of rounds): per round, load the flag (break
if set), run the guarded `pre_round_delay` wait, load the flag again (break
if set), run the for loop over the points, run the guarded
`post_round_delay` wait, and continue with the next round. -/
def execute_click_sequence (flag : Nat → Bool) (iw : Nat → Bool × Nat)
    (config : Config) : Nat → Nat → List Event × Nat
  | 0, i => ([], i)
  | n + 1, i =>
    if flag i then ([], i + 1)
    else
      let w0 := guarded_wait_u64 flag config.pre_round_delay (i + 1)
      if flag w0.2 then (w0.1.map Event.sleep, w0.2 + 1)
      else
        let pts := execute_points flag iw config.points (w0.2 + 1)
        let w1 := guarded_wait_u64 flag config.post_round_delay pts.2
        let rest := execute_click_sequence flag iw config n w1.2
        (w0.1.map Event.sleep ++ (pts.1 ++ (w1.1.map Event.sleep ++ rest.1)),
         rest.2)

/-- Number of `click` events in a trace. -/
def numClicks (evs : List Event) : Nat :=
  (evs.filter fun e => match e with
    | Event.click _ _ => true
    | _ => false).length

/-- An event is either a click or a sleep of a legal quantum. -/
def sleepOk (e : Event) : Prop :=
  ∀ q, e = Event.sleep q → 0 < q ∧ q ≤ 10

theorem sleepOk_click (x y : Int) : sleepOk (Event.click x y) := by
  intro q hq
  exact Event.noConfusion hq

theorem sleepOk_of_mem_map_guarded_i32 (flag : Nat → Bool) (d : Int)
    (i : Nat) (e : Event)
    (he : e ∈ (guarded_wait_i32 flag d i).1.map Event.sleep) : sleepOk e := by
  rcases List.mem_map.mp he with ⟨q, hq, rfl⟩
  intro q' hq'
  cases hq'
  unfold guarded_wait_i32 at hq
  split at hq
  · exact cancellable_wait_quanta flag _ i q hq
  · simp at hq

theorem sleepOk_of_mem_map_guarded_u64 (flag : Nat → Bool) (d : Nat)
    (i : Nat) (e : Event)
    (he : e ∈ (guarded_wait_u64 flag d i).1.map Event.sleep) : sleepOk e := by
  rcases List.mem_map.mp he with ⟨q, hq, rfl⟩
  intro q' hq'
  cases hq'
  unfold guarded_wait_u64 at hq
  split at hq
  · exact cancellable_wait_quanta flag _ i q hq
  · simp at hq


theorem sleepOk_append (l1 l2 : List Event)
    (h1 : ∀ e ∈ l1, sleepOk e) (h2 : ∀ e ∈ l2, sleepOk e) :
    ∀ e ∈ l1 ++ l2, sleepOk e := by
  intro e he
  rcases List.mem_append.mp he with h | h
  · exact h1 e h
  · exact h2 e h

theorem sleepOk_cons_click (x y : Int) (l : List Event)
    (h : ∀ e ∈ l, sleepOk e) :
    ∀ e ∈ Event.click x y :: l, sleepOk e := by
  intro e he
  rcases List.mem_cons.mp he with h' | h'
  · subst h'; exact sleepOk_click x y
  · exact h e h'

/-- Every event of the for-loop trace is a click or a ≤10 ms sleep. -/
theorem execute_points_sleepOk (flag : Nat → Bool) (iw : Nat → Bool × Nat)
    (ps : List ClickPoint) (i : Nat) :
    ∀ e ∈ (execute_points flag iw ps i).1, sleepOk e := by
  induction ps generalizing i with
  | nil =>
    intro e he
    simp [execute_points] at he
  | cons p ps ih =>
    rw [execute_points]
    by_cases hf : flag i
    · intro e he
      simp [hf] at he
    · simp only [hf, if_false]
      by_cases hf2 : flag (guarded_wait_i32 flag p.pre_delay (i + 1)).2
      · simp only [hf2, if_true]
        exact fun e he => sleepOk_of_mem_map_guarded_i32 flag _ _ e he
      · simp only [hf2, if_false]
        exact sleepOk_append _ _
          (fun e he => sleepOk_of_mem_map_guarded_i32 flag _ _ e he)
          (sleepOk_cons_click _ _ _
            (sleepOk_append _ _
              (fun e he => sleepOk_of_mem_map_guarded_i32 flag _ _ e he)
              (ih _)))

/-- Every event of a run's trace is a click or a ≤10 ms sleep. -/
theorem execute_click_sequence_sleepOk (flag : Nat → Bool)
    (iw : Nat → Bool × Nat) (config : Config) (n i : Nat) :
    ∀ e ∈ (execute_click_sequence flag iw config n i).1, sleepOk e := by
  induction n generalizing i with
  | zero =>
    intro e he
    simp [execute_click_sequence] at he
  | succ n ih =>
    rw [execute_click_sequence]
    by_cases hf : flag i
    · intro e he
      simp [hf] at he
    · simp only [hf, if_false]
      by_cases hf2 : flag (guarded_wait_u64 flag config.pre_round_delay (i + 1)).2
      · simp only [hf2, if_true]
        exact fun e he => sleepOk_of_mem_map_guarded_u64 flag _ _ e he
      · simp only [hf2, if_false]
        exact sleepOk_append _ _
          (fun e he => sleepOk_of_mem_map_guarded_u64 flag _ _ e he)
          (sleepOk_append _ _
            (execute_points_sleepOk flag iw config.points _)
            (sleepOk_append _ _
              (fun e he => sleepOk_of_mem_map_guarded_u64 flag _ _ e he)
              (ih _)))

theorem execute_points_nil (flag : Nat → Bool) (iw : Nat → Bool × Nat)
    (i : Nat) : execute_points flag iw [] i = ([], i) := rfl

/-- A set flag observed at the head of the for loop aborts it at once. -/
theorem execute_points_cancelled (flag : Nat → Bool) (iw : Nat → Bool × Nat)
    (p : ClickPoint) (ps : List ClickPoint) (i : Nat) (hf : flag i = true) :
    execute_points flag iw (p :: ps) i = ([], i + 1) := by
  rw [execute_points]
  simp [hf]

theorem execute_click_sequence_zero (flag : Nat → Bool)
    (iw : Nat → Bool × Nat) (config : Config) (i : Nat) :
    execute_click_sequence flag iw config 0 i = ([], i) := rfl

/-- A set flag observed at the top of the outer loop ends the run at once:
no new round begins, no event is emitted. -/
theorem execute_click_sequence_cancelled (flag : Nat → Bool)
    (iw : Nat → Bool × Nat) (config : Config) (n i : Nat)
    (hf : flag i = true) :
    execute_click_sequence flag iw config (n + 1) i = ([], i + 1) := by
  rw [execute_click_sequence]
  simp [hf]

/-- A set flag observed by a pending chunked wait ends it before any
further quantum. -/
theorem cancellable_wait_cancelled (flag : Nat → Bool) (r i : Nat)
    (hf : flag i = true) :
    (cancellable_wait flag r i).1 = [] := by
  match r with
  | 0 => rw [cancellable_wait_zero]
  | r + 1 => rw [cancellable_wait_true flag r i hf]

/-- With two flags that are never observed set, the chunked wait performs
the same quanta regardless of the start index. -/
theorem cancellable_wait_quiet_eq (flag flag' : Nat → Bool) (r i i' : Nat)
    (hflag : ∀ j, flag j = false) (hflag' : ∀ j, flag' j = false) :
    (cancellable_wait flag r i).1 = (cancellable_wait flag' r i').1 := by
  induction r using Nat.strong_induction_on generalizing i i' with
  | _ r ih =>
    match r with
    | 0 => rw [cancellable_wait_zero, cancellable_wait_zero]
    | r + 1 =>
      rw [cancellable_wait_false flag r i (hflag i),
        cancellable_wait_false flag' r i' (hflag' i')]
      dsimp only
      congr 1
      exact ih _ (by split <;> omega) _ _

/-- The event trace of the guarded per-step wait run against a flag that
stays unset, as a function of the delay alone. -/
def quiet_wait_i32 (d : Int) : List Event :=
  (guarded_wait_i32 (fun _ => false) d 0).1.map Event.sleep

/-- The event trace of the guarded round wait run against a flag that
stays unset, as a function of the delay alone. -/
def quiet_wait_u64 (d : Nat) : List Event :=
  (guarded_wait_u64 (fun _ => false) d 0).1.map Event.sleep

/-- Spec view of one step executed with the flag unset throughout:
pre-delay wait, exactly one click at the step's position, post-delay
wait. -/
def step_trace (p : ClickPoint) : List Event :=
  quiet_wait_i32 p.pre_delay ++
    (Event.click p.x p.y :: quiet_wait_i32 p.post_delay)

/-- Spec view of one round executed with the flag unset throughout. -/
def round_trace (config : Config) : List Event :=
  quiet_wait_u64 config.pre_round_delay ++
    ((config.points.map step_trace).flatten ++
      quiet_wait_u64 config.post_round_delay)

theorem guarded_wait_i32_quiet (flag : Nat → Bool) (d : Int) (i : Nat)
    (hflag : ∀ j, flag j = false) :
    (guarded_wait_i32 flag d i).1.map Event.sleep = quiet_wait_i32 d := by
  unfold quiet_wait_i32 guarded_wait_i32
  by_cases hd : d > 0
  · simp only [if_pos hd]
    exact congrArg _ (cancellable_wait_quiet_eq flag _ _ i 0 hflag
      (fun _ => rfl))
  · simp only [if_neg hd]

theorem guarded_wait_u64_quiet (flag : Nat → Bool) (d : Nat) (i : Nat)
    (hflag : ∀ j, flag j = false) :
    (guarded_wait_u64 flag d i).1.map Event.sleep = quiet_wait_u64 d := by
  unfold quiet_wait_u64 guarded_wait_u64
  by_cases hd : d > 0
  · simp only [if_pos hd]
    exact congrArg _ (cancellable_wait_quiet_eq flag _ _ i 0 hflag
      (fun _ => rfl))
  · simp only [if_neg hd]

/-- With the flag unset throughout, the for loop emits, for each point in
configuration order, exactly the step trace: pre-wait, one click, post-wait. -/
theorem execute_points_quiet (flag : Nat → Bool) (iw : Nat → Bool × Nat)
    (ps : List ClickPoint) (i : Nat) (hflag : ∀ j, flag j = false) :
    (execute_points flag iw ps i).1 = (ps.map step_trace).flatten := by
  induction ps generalizing i with
  | nil => simp [execute_points_nil]
  | cons p ps ih =>
    rw [execute_points]
    simp only [hflag, Bool.false_eq_true, if_false]
    rw [guarded_wait_i32_quiet flag _ _ hflag,
      guarded_wait_i32_quiet flag _ _ hflag, ih]
    simp [step_trace]

/-- With the flag unset throughout, one round (fuel 1) emits exactly the
round trace: pre-round wait, the step traces in order, post-round wait. -/
theorem execute_click_sequence_one_quiet (flag : Nat → Bool)
    (iw : Nat → Bool × Nat) (config : Config) (i : Nat)
    (hflag : ∀ j, flag j = false) :
    (execute_click_sequence flag iw config 1 i).1 = round_trace config := by
  rw [execute_click_sequence]
  simp only [hflag, Bool.false_eq_true, if_false]
  rw [guarded_wait_u64_quiet flag _ _ hflag,
    guarded_wait_u64_quiet flag _ _ hflag,
    execute_points_quiet flag iw _ _ hflag]
  simp [round_trace, execute_click_sequence_zero]

theorem numClicks_nil : numClicks [] = 0 := rfl

theorem numClicks_append (l1 l2 : List Event) :
    numClicks (l1 ++ l2) = numClicks l1 + numClicks l2 := by
  simp [numClicks, List.filter_append]

theorem numClicks_cons_click (x y : Int) (l : List Event) :
    numClicks (Event.click x y :: l) = numClicks l + 1 := by
  simp [numClicks, List.filter_cons]

theorem numClicks_map_sleep (l : List Nat) :
    numClicks (l.map Event.sleep) = 0 := by
  induction l with
  | nil => rfl
  | cons q l ih =>
    simp only [List.map_cons]
    simp [numClicks, List.filter_cons]

/-- With the flag unset throughout, the for loop emits exactly one click
per configured point. -/
theorem execute_points_quiet_numClicks (flag : Nat → Bool)
    (iw : Nat → Bool × Nat) (ps : List ClickPoint) (i : Nat)
    (hflag : ∀ j, flag j = false) :
    numClicks (execute_points flag iw ps i).1 = ps.length := by
  rw [execute_points_quiet flag iw ps i hflag]
  induction ps with
  | nil => rfl
  | cons p ps ih =>
    simp only [List.map_cons, List.flatten_cons, numClicks_append, ih,
      List.length_cons]
    simp [step_trace, numClicks_append, numClicks_cons_click,
      numClicks_map_sleep, quiet_wait_i32]
    omega

/-- A run over an empty point list never clicks, whatever the flag does. -/
theorem execute_click_sequence_no_points_numClicks (flag : Nat → Bool)
    (iw : Nat → Bool × Nat) (config : Config) (n i : Nat)
    (hpts : config.points = []) :
    numClicks (execute_click_sequence flag iw config n i).1 = 0 := by
  induction n generalizing i with
  | zero => rfl
  | succ n ih =>
    rw [execute_click_sequence]
    by_cases hf : flag i
    · simp [hf, numClicks_nil]
    · by_cases hf2 : flag (guarded_wait_u64 flag config.pre_round_delay (i + 1)).2
      · simp [hf, hf2, numClicks_map_sleep, numClicks_nil]
      · simp [hf, hf2, numClicks_append, numClicks_map_sleep, hpts,
          execute_points_nil, numClicks_nil, ih]

/-- The for loop's behaviour does not depend on the injection outcomes:
`simulate_click`'s result is discarded. -/
theorem execute_points_iw_irrel (flag : Nat → Bool)
    (iw iw' : Nat → Bool × Nat) (ps : List ClickPoint) (i : Nat) :
    execute_points flag iw ps i = execute_points flag iw' ps i := by
  induction ps generalizing i with
  | nil => rfl
  | cons p ps ih =>
    rw [execute_points, execute_points]
    simp only [ih]

/-- The whole runner's behaviour does not depend on the injection
outcomes. -/
theorem execute_click_sequence_iw_irrel (flag : Nat → Bool)
    (iw iw' : Nat → Bool × Nat) (config : Config) (n i : Nat) :
    execute_click_sequence flag iw config n i =
      execute_click_sequence flag iw' config n i := by
  induction n generalizing i with
  | zero => rfl
  | succ n ih =>
    rw [execute_click_sequence, execute_click_sequence]
    simp only [ih, execute_points_iw_irrel flag iw iw' config.points]

/-- Supervisor-visible state of `main`'s loop: the value of the shared
`should_stop` flag and whether `click_thread_handle` is `Some`. -/
structure SupState where
  should_stop : Bool
  handle : Bool
deriving DecidableEq, Repr

/-- Observable actions of one iteration of `main`'s loop. -/
inductive SupEvent where
  /-- `should_stop.store(b, Ordering::Relaxed)` -/
  | setFlag (b : Bool)
  /-- `thread::spawn(... execute_click_sequence ...)` -/
  | spawn
  /-- `handle.join()` on the taken handle -/
  | join
  /-- `high_precision_sleep(ms)` in the loop body -/
  | sleepMs (ms : Nat)
deriving DecidableEq, Repr

/-- One iteration of `main`'s loop, given this tick's two key samples
(`esc` from `is_escape_pressed`, `side` from `is_side_button1_pressed`):

```rust
if is_escape_pressed() {
    should_stop.store(true, ...);
    if let Some(handle) = click_thread_handle.take() { let _ = handle.join(); }
    break;
}
let side_button1_pressed = is_side_button1_pressed();
if side_button1_pressed && click_thread_handle.is_none() {
    should_stop.store(false, ...);
    click_thread_handle = Some(thread::spawn(...));
} else if !side_button1_pressed && click_thread_handle.is_some() {
    should_stop.store(true, ...);
    if let Some(handle) = click_thread_handle.take() { let _ = handle.join(); }
} else if click_thread_handle.is_none() {
    high_precision_sleep(10);
}
if click_thread_handle.is_some() {
    high_precision_sleep(1);
}
```

Returns the tick's events, the new state, and whether `break` ran. -/
def supTick (esc side : Bool) (s : SupState) : List SupEvent × SupState × Bool :=
  if esc then
    (SupEvent.setFlag true :: (if s.handle then [SupEvent.join] else []),
      ⟨true, false⟩, true)
  else
    let step :=
      if side && !s.handle then
        ([SupEvent.setFlag false, SupEvent.spawn],
          (⟨false, true⟩ : SupState))
      else if !side && s.handle then
        ([SupEvent.setFlag true, SupEvent.join],
          (⟨true, false⟩ : SupState))
      else if !s.handle then
        ([SupEvent.sleepMs 10], s)
      else
        ([], s)
    (step.1 ++ (if step.2.handle then [SupEvent.sleepMs 1] else []),
      step.2, false)

/-- `main`'s loop over a finite schedule of key samples, one `(esc, side)`
pair per iteration; stops early when a tick breaks. -/
def supRun : List (Bool × Bool) → SupState → List SupEvent × SupState × Bool
  | [], s => ([], s, false)
  | (esc, side) :: rest, s =>
    let t := supTick esc side s
    if t.2.2 then (t.1, t.2.1, true)
    else
      let r := supRun rest t.2.1
      (t.1 ++ r.1, r.2.1, r.2.2)

/-- Replay a supervisor trace against a handle-liveness bit: a `spawn` is
legal only when no handle is live (and makes one live), a `join` only when
one is live (and retires it).  `none` marks an illegal trace. -/
def scanHandle : Bool → List SupEvent → Option Bool
  | h, [] => some h
  | h, SupEvent.spawn :: rest => if h then none else scanHandle true rest
  | h, SupEvent.join :: rest => if h then scanHandle false rest else none
  | h, SupEvent.setFlag _ :: rest => scanHandle h rest
  | h, SupEvent.sleepMs _ :: rest => scanHandle h rest

theorem scanHandle_append (l1 l2 : List SupEvent) (h : Bool) :
    scanHandle h (l1 ++ l2) =
      (scanHandle h l1).bind (fun h' => scanHandle h' l2) := by
  induction l1 generalizing h with
  | nil => rfl
  | cons e l1 ih =>
    match e with
    | SupEvent.spawn =>
      rw [List.cons_append, scanHandle, scanHandle]
      by_cases hh : h <;> simp [hh, ih]
    | SupEvent.join =>
      rw [List.cons_append, scanHandle, scanHandle]
      by_cases hh : h <;> simp [hh, ih]
    | SupEvent.setFlag b => rw [List.cons_append, scanHandle, scanHandle, ih]
    | SupEvent.sleepMs q => rw [List.cons_append, scanHandle, scanHandle, ih]

/-- One tick's events replay legally from the tick's starting handle state
and end in the tick's final handle state. -/
theorem supTick_scanHandle (esc side : Bool) (s : SupState) :
    scanHandle s.handle (supTick esc side s).1 =
      some (supTick esc side s).2.1.handle := by
  rcases s with ⟨f, h⟩
  cases esc <;> cases side <;> cases h <;> cases f <;> rfl

/-- A whole run's events replay legally from the starting handle state and
end in the final handle state. -/
theorem supRun_scanHandle (inputs : List (Bool × Bool)) (s : SupState) :
    scanHandle s.handle (supRun inputs s).1 =
      some (supRun inputs s).2.1.handle := by
  induction inputs generalizing s with
  | nil => rfl
  | cons p rest ih =>
    rcases p with ⟨esc, side⟩
    rw [supRun]
    by_cases hb : (supTick esc side s).2.2
    · rw [if_pos hb]
      exact supTick_scanHandle esc side s
    · rw [if_neg hb]
      dsimp only
      rw [scanHandle_append, supTick_scanHandle esc side s]
      exact ih _

/-- `set_dpi_awareness()`: succeeds iff the OS call reports success. -/
def set_dpi_awareness (dpi_ok : Bool) : Except String Unit :=
  if dpi_ok then Except.ok ()
  else Except.error "无法设置DPI感知"

namespace Config

/-- `Config::from_file`: read the file (the oracle `content` is `none` when
`fs::read_to_string` fails), then parse it (the oracle `parse` stands for
`serde_json::from_str::<Config>`, `none` on a parse error); each failure is
mapped to its own error message, and a successfully parsed `Config` is
returned untouched — no defaults are substituted. -/
def from_file (content : Option String) (parse : String → Option Config) :
    Except String Config :=
  match content with
  | none => Except.error "无法读取配置文件"
  | some text =>
    match parse text with
    | none => Except.error "配置文件格式错误"
    | some config => Except.ok config

end Config

/-- `main`: best-effort DPI setup (result discarded), then `Config::from_file`
(any error is mapped to the startup error message and aborts with a non-zero
exit before the loop), then the control loop runs over the key-sample
schedule, starting with `should_stop = false` and no thread handle.  The
result is the supervisor event trace, or the startup error. -/
def main (dpi_ok : Bool) (content : Option String)
    (parse : String → Option Config) (inputs : List (Bool × Bool)) :
    Except String (List SupEvent) :=
  let _dpi := set_dpi_awareness dpi_ok
  match Config.from_file content parse with
  | Except.error _ => Except.error "配置文件不存在或格式错误"
  | Except.ok _config => Except.ok (supRun inputs ⟨false, false⟩).1

/-- C1: for every total duration and flag behaviour, the chunked
cancellable wait sleeps in quanta of at most 10 ms (each a real, positive
sleep), re-checks the flag (observing it unset) before every quantum it
performs, performs no quantum from the j-th check onwards once that check
observes the flag set, its aggregate sleep never exceeds the total (hence
never exceeds the total rounded up to the next quantum), and when the flag
never becomes set the aggregate sleep is exactly the total. -/
theorem claim_C1_cancellable_wait (total i : Nat) (flag : Nat → Bool) :
    (∀ q ∈ (cancellable_wait flag total i).1, 0 < q ∧ q ≤ 10) ∧
    (cancellable_wait flag total i).1.sum ≤ total ∧
    (∀ k, k < (cancellable_wait flag total i).1.length →
      flag (i + k) = false) ∧
    (∀ j, flag (i + j) = true →
      (cancellable_wait flag total i).1.length ≤ j) ∧
    ((∀ j, flag j = false) → (cancellable_wait flag total i).1.sum = total) :=
  ⟨fun q hq => cancellable_wait_quanta flag total i q hq,
   cancellable_wait_sum_le flag total i,
   fun k hk => cancellable_wait_checks flag total i k hk,
   fun j hj => cancellable_wait_stops flag total i j hj,
   fun h => cancellable_wait_sum_eq flag total i h⟩

theorem claim_C1_cancellable_wait_witness :
    (cancellable_wait (fun n => n == 1) 25 0).1.length ≤ 1 ∧
    (cancellable_wait (fun _ => false) 23 0).1.sum = 23 :=
  ⟨(claim_C1_cancellable_wait 25 0 (fun n => n == 1)).2.2.2.1 1 (by decide),
   (claim_C1_cancellable_wait 23 0 (fun _ => false)).2.2.2.2 (fun _ => rfl)⟩

/-- C2: once the flag is set and remains set (true at every load index from
i0 on) and the runner's next load index has reached i0, the runner never
begins a new top-level round (a fresh round returns at once with an empty
trace), never begins a new step from scratch (the for loop returns at once
with an empty trace), a pending chunked wait performs no further quantum,
every continuation trace is empty — in particular no further click is
emitted after a check at or past i0 — and in general every sleep the
runner ever performs is a single quantum of at most 10 ms. -/
theorem claim_C2_cancelled_run (flag : Nat → Bool) (iw : Nat → Bool × Nat)
    (config : Config) (p : ClickPoint) (ps : List ClickPoint)
    (n r i i0 : Nat)
    (hset : ∀ j, i0 ≤ j → flag j = true) (hi : i0 ≤ i) :
    execute_click_sequence flag iw config (n + 1) i = ([], i + 1) ∧
    execute_points flag iw (p :: ps) i = ([], i + 1) ∧
    (0 < r → cancellable_wait flag r i = ([], i + 1)) ∧
    (execute_click_sequence flag iw config n i).1 = [] ∧
    (execute_points flag iw ps i).1 = [] ∧
    (cancellable_wait flag r i).1 = [] ∧
    (∀ (g : Nat → Bool) (e : Event),
      e ∈ (execute_click_sequence g iw config n i).1 → sleepOk e) := by
  have hfi : flag i = true := hset i hi
  refine ⟨execute_click_sequence_cancelled flag iw config n i hfi,
    execute_points_cancelled flag iw p ps i hfi, ?_, ?_, ?_,
    cancellable_wait_cancelled flag r i hfi,
    fun g e he => execute_click_sequence_sleepOk g iw config n i e he⟩
  · intro hr
    match r, hr with
    | r + 1, _ => exact cancellable_wait_true flag r i hfi
  · match n with
    | 0 => rfl
    | n + 1 => rw [execute_click_sequence_cancelled flag iw config n i hfi]
  · match ps with
    | [] => rfl
    | p' :: ps' => rw [execute_points_cancelled flag iw p' ps' i hfi]

theorem claim_C2_cancelled_run_witness :
    execute_click_sequence (fun j => decide (2 ≤ j)) (fun _ => (true, 2))
      ⟨[⟨1, 1, 5, 5⟩], 3, 4⟩ 4 2 = ([], 3) :=
  (claim_C2_cancelled_run (fun j => decide (2 ≤ j)) (fun _ => (true, 2))
    ⟨[⟨1, 1, 5, 5⟩], 3, 4⟩ ⟨1, 1, 5, 5⟩ [] 3 7 2 2
    (fun _ hj => decide_eq_true hj) (Nat.le_refl 2)).1

/-- C3: at most one run handle is live in every reachable supervisor state:
replaying any run's event trace against the starting handle-liveness bit is
legal (every `spawn` occurs with no handle stored, every `join` with one
stored) and ends in the final state's bit; at tick level, a spawn happens
only when the stored handle is absent, and the handle is dropped across a
tick only if that tick joined it. -/
theorem claim_C3_at_most_one_run (inputs : List (Bool × Bool))
    (esc side : Bool) (s : SupState) :
    scanHandle s.handle (supRun inputs s).1 =
      some (supRun inputs s).2.1.handle ∧
    (SupEvent.spawn ∈ (supTick esc side s).1 → s.handle = false) ∧
    ((supTick esc side s).2.1.handle = false → s.handle = true →
      SupEvent.join ∈ (supTick esc side s).1) := by
  refine ⟨supRun_scanHandle inputs s, ?_, ?_⟩ <;>
    rcases s with ⟨f, h⟩ <;> cases esc <;> cases side <;> cases f <;>
    cases h <;> decide

theorem claim_C3_at_most_one_run_witness :
    SupEvent.join ∈ (supTick false false ⟨false, true⟩).1 ∧
    (⟨false, false⟩ : SupState).handle = false :=
  ⟨(claim_C3_at_most_one_run [] false false ⟨false, true⟩).2.2 rfl rfl,
   (claim_C3_at_most_one_run [] false true ⟨false, false⟩).2.1 (by decide)⟩

/-- C4: the supervisor tick realizes exactly the specified transitions,
checking the cancel signal first: on `esc` it stores `true` into the flag,
joins the handle when one is live, and breaks out of the loop (whatever the
trigger sample and prior state); on trigger sampled true in Idle it first
stores `false` into the flag, then spawns, storing the handle (then takes
the short running tick sleep); on trigger sampled false in Running it first
stores `true` into the flag, then joins, then drops the handle. -/
theorem claim_C4_supervisor_transitions (side f : Bool) (s : SupState) :
    supTick true side s =
      (SupEvent.setFlag true :: (if s.handle then [SupEvent.join] else []),
        ⟨true, false⟩, true) ∧
    supTick false true ⟨f, false⟩ =
      ([SupEvent.setFlag false, SupEvent.spawn, SupEvent.sleepMs 1],
        ⟨false, true⟩, false) ∧
    supTick false false ⟨f, true⟩ =
      ([SupEvent.setFlag true, SupEvent.join], ⟨true, false⟩, false) :=
  ⟨rfl, rfl, rfl⟩

/-- C5: with the flag unset throughout, the runner's for loop processes the
points in configuration order and, for each, emits exactly: the pre-delay
chunked wait, one click at the step's position, the post-delay chunked
wait — the two flag checks around the pre-delay wait passing silently. -/
theorem claim_C5_step_order (flag : Nat → Bool) (iw : Nat → Bool × Nat)
    (ps : List ClickPoint) (i : Nat) (hflag : ∀ j, flag j = false) :
    (execute_points flag iw ps i).1 = (ps.map step_trace).flatten ∧
    ∀ p : ClickPoint, step_trace p =
      quiet_wait_i32 p.pre_delay ++
        (Event.click p.x p.y :: quiet_wait_i32 p.post_delay) :=
  ⟨execute_points_quiet flag iw ps i hflag, fun _ => rfl⟩

theorem claim_C5_step_order_witness :
    (execute_points (fun _ => false) (fun _ => (true, 2))
        [⟨1, 2, 3, 4⟩, ⟨5, 6, 25, 0⟩] 0).1 =
      ([⟨1, 2, 3, 4⟩, ⟨5, 6, 25, 0⟩].map step_trace).flatten :=
  (claim_C5_step_order (fun _ => false) (fun _ => (true, 2))
    [⟨1, 2, 3, 4⟩, ⟨5, 6, 25, 0⟩] 0 (fun _ => rfl)).1

/-- C6: for a configuration with an empty step list, a round with the flag
unset consists only of the pre-round wait followed by the post-round wait,
and — whatever the flag does — a run over such a configuration performs
zero injected clicks. -/
theorem claim_C6_empty_round (flag : Nat → Bool) (iw : Nat → Bool × Nat)
    (config : Config) (n i j : Nat) (hpts : config.points = [])
    (hflag : ∀ k, flag k = false) :
    (execute_click_sequence flag iw config 1 i).1 =
      quiet_wait_u64 config.pre_round_delay ++
        quiet_wait_u64 config.post_round_delay ∧
    numClicks (execute_click_sequence flag iw config n j).1 = 0 := by
  constructor
  · rw [execute_click_sequence_one_quiet flag iw config i hflag]
    simp [round_trace, hpts]
  · exact execute_click_sequence_no_points_numClicks flag iw config n j hpts

theorem claim_C6_empty_round_witness :
    (execute_click_sequence (fun _ => false) (fun _ => (true, 2))
        ⟨[], 5, 12⟩ 1 0).1 = quiet_wait_u64 5 ++ quiet_wait_u64 12 ∧
    numClicks (execute_click_sequence (fun _ => false) (fun _ => (true, 2))
        ⟨[], 5, 12⟩ 3 0).1 = 0 :=
  claim_C6_empty_round (fun _ => false) (fun _ => (true, 2)) ⟨[], 5, 12⟩
    3 0 0 rfl (fun _ => rfl)

/-- C7: a zero wait is a no-op: `high_precision_sleep(0)` performs no sleep
and returns immediately, and the chunked cancellable wait with total 0
returns immediately — the flag-load index is unchanged because the
short-circuited loop condition never loads the flag. -/
theorem claim_C7_zero_wait (flag : Nat → Bool) (i : Nat) :
    high_precision_sleep 0 = [] ∧ cancellable_wait flag 0 i = ([], i) :=
  ⟨rfl, cancellable_wait_zero flag i⟩

/-- C8: a failure of `simulate_click` is discarded by the runner: the for
loop and the whole run are literally independent of the injection outcome
oracle (so a failure never aborts the step, the round or the run, and is
never propagated); failures are representable (`SetCursorPos` failure and
a short `SendInput` count both yield errors, a full count succeeds); and a
step emits exactly one click — no retry within the step. -/
theorem claim_C8_click_failure_ignored (flag : Nat → Bool)
    (iw iw' : Nat → Bool × Nat) (config : Config) (p : ClickPoint)
    (ps : List ClickPoint) (n i : Nat) :
    execute_points flag iw ps i = execute_points flag iw' ps i ∧
    execute_click_sequence flag iw config n i =
      execute_click_sequence flag iw' config n i ∧
    simulate_click false 2 = Except.error "设置鼠标位置失败" ∧
    simulate_click true 1 = Except.error "鼠标点击模拟失败" ∧
    simulate_click true 2 = Except.ok () ∧
    ((∀ j, flag j = false) →
      numClicks (execute_points flag iw [p] i).1 = 1) :=
  ⟨execute_points_iw_irrel flag iw iw' ps i,
   execute_click_sequence_iw_irrel flag iw iw' config n i,
   rfl, rfl, rfl,
   fun h => execute_points_quiet_numClicks flag iw [p] i h⟩

theorem claim_C8_click_failure_ignored_witness :
    numClicks (execute_points (fun _ => false) (fun _ => (false, 0))
        [⟨1, 2, 3, 4⟩] 0).1 = 1 :=
  (claim_C8_click_failure_ignored (fun _ => false) (fun _ => (false, 0))
    (fun _ => (false, 0)) ⟨[], 0, 0⟩ ⟨1, 2, 3, 4⟩ [] 0 0).2.2.2.2.2
    (fun _ => rfl)

/-- C9: an unreadable or unparsable configuration file makes `main` return
the startup error before the control loop: the result carries no supervisor
events at all (so no signal sampling and no click injection occurred), and
a successfully parsed configuration is returned by `Config::from_file`
exactly as parsed — no defaults are substituted. -/
theorem claim_C9_startup_error (dpi_ok : Bool) (text : String)
    (parse : String → Option Config) (config : Config)
    (inputs : List (Bool × Bool)) :
    main dpi_ok none parse inputs =
      Except.error "配置文件不存在或格式错误" ∧
    (parse text = none →
      main dpi_ok (some text) parse inputs =
        Except.error "配置文件不存在或格式错误") ∧
    (parse text = some config →
      Config.from_file (some text) parse = Except.ok config) := by
  refine ⟨rfl, fun h => ?_, fun h => ?_⟩
  · simp [main, Config.from_file, h]
  · simp [Config.from_file, h]

theorem claim_C9_startup_error_witness :
    main true (some "not json") (fun _ => none) [(false, true)] =
      Except.error "配置文件不存在或格式错误" ∧
    Config.from_file (some "x")
        (fun _ => some ⟨[], 0, 0⟩) = Except.ok ⟨[], 0, 0⟩ :=
  ⟨(claim_C9_startup_error true "not json" (fun _ => none) ⟨[], 0, 0⟩
      [(false, true)]).2.1 rfl,
   (claim_C9_startup_error true "x" (fun _ => some ⟨[], 0, 0⟩) ⟨[], 0, 0⟩
      []).2.2 rfl⟩

/-- C10 counterexample: a step with negative delays.  The claim says the
runner waits `d mod 2^64` milliseconds (here `2^64 - 5` ms); in fact the
step's whole trace is a single click with no sleep at all: the signed guard
`pre_delay > 0` is evaluated before the `as u64` cast and skips the wait,
whose aggregate sleep is therefore 0, not the astronomically large
`(-5) mod 2^64 = 2^64 - 5`. -/
theorem claim_C10_counterexample :
    (execute_points (fun _ => false) (fun _ => (true, 2))
        [⟨0, 0, -5, -7⟩] 0).1 = [Event.click 0 0] ∧
    (guarded_wait_i32 (fun _ => false) (-5) 0).1.sum = 0 ∧
    (-5 : Int) % (2 : Int) ^ 64 = 2 ^ 64 - 5 := by
  refine ⟨rfl, rfl, by decide⟩

/-- C10 amended: per-step delays are parsed as signed 32-bit integers and
the cast to u64 exists in the runner, but it sits behind the signed guard
`pre_delay > 0`: a non-positive delay is accepted at startup and the runner
skips its wait entirely (no sleep, no flag check) instead of waiting
`d mod 2^64` ms; the cast is reached only for positive values, where the
`mod 2^64` reinterpretation is the identity on any i32. -/
theorem claim_C10_negative_delay_skipped (flag : Nat → Bool) (d : Int)
    (i : Nat) :
    (d ≤ 0 → guarded_wait_i32 flag d i = ([], i)) ∧
    (0 < d → guarded_wait_i32 flag d i =
      cancellable_wait flag ((d % (2 : Int) ^ 64).toNat) i) ∧
    (0 < d → d < 2 ^ 31 → (d % (2 : Int) ^ 64).toNat = d.toNat) := by
  refine ⟨fun h => ?_, fun h => ?_, fun h1 h2 => ?_⟩
  · unfold guarded_wait_i32
    rw [if_neg (by omega)]
  · unfold guarded_wait_i32
    rw [if_pos h]
  · rw [Int.emod_eq_of_lt (le_of_lt h1)
      (lt_trans h2 (by norm_num))]

theorem claim_C10_negative_delay_skipped_witness :
    guarded_wait_i32 (fun _ => false) (-5) 3 = ([], 3) ∧
    ((2000 : Int) % (2 : Int) ^ 64).toNat = (2000 : Int).toNat :=
  ⟨(claim_C10_negative_delay_skipped (fun _ => false) (-5) 3).1 (by decide),
   (claim_C10_negative_delay_skipped (fun _ => false) 2000 3).2.2
     (by decide) (by decide)⟩

end AutoClicker
